import Mathlib

/-!
Shallow embedding of the `exp_perf` micro-benchmark measurement engine
(`src/counter.h`, `src/collector.h`).

Modelling conventions:
* C `long long` counts and C `int` quantities are modelled as `Int`
  (no claim under consideration depends on fixed-width overflow).
* C `double` quantities are modelled as `ℚ` with exact arithmetic; the only
  transcendental the code uses is `-std::log(m_alpha)`, which appears in the
  model as the configuration field `mlog` (for `alpha ∈ (0,1)` it is a
  positive constant of the session).  Division is the total division of `ℚ`,
  so a division whose real counterpart is non-finite is tracked through its
  zero denominator.
* The C cast `(int)` of a `double` truncates toward zero, which on a
  rational `q` in lowest terms is `q.num.div q.den` (T-division).
* OS results (the fd returned by `perf_event_open`, the values read from a
  channel) are inputs of the model: `openRes i` is the fd produced by the
  i-th open attempt, and `cnt t` is the count the selected channel yields
  for the t-th timed trial of a session.
-/

namespace ExpPerf

/-! ### Counter source (`src/counter.h`) -/

/-- The four perf events requested by the collector, in request order. -/
inductive PerfEvent where
  | sw_task_clock
  | sw_cpu_clock
  | hw_instructions
  | hw_ref_cpu_cycles
  deriving DecidableEq, Repr

/-- The three parallel vectors held by `class counter`:
`m_events`, `m_fds`, `m_counts`. -/
structure CounterSt where
  events : List PerfEvent
  fds : List Int
  counts : List Int
  deriving DecidableEq, Repr

/-- Model of `counter::init_event`: push onto all three vectors iff the open
returned a usable fd (`fd > -1`); otherwise the attempt is dropped. -/
def init_event (fd : Int) (evt : PerfEvent) (s : CounterSt) : CounterSt :=
  if -1 < fd then
    { events := s.events ++ [evt], fds := s.fds ++ [fd], counts := s.counts ++ [0] }
  else s

/-- The requested-event loop of `counter::counter`; `i` is the index of the
next open attempt, whose fd is `openRes i`. -/
def counterInitAux (openRes : Nat → Int) : List PerfEvent → Nat → CounterSt → CounterSt
  | [], _, s => s
  | e :: es, i, s => counterInitAux openRes es (i + 1) (init_event (openRes i) e s)

/-- Model of `counter::counter`: attempt to open every requested event in order,
starting from empty vectors. -/
def counterInit (reqs : List PerfEvent) (openRes : Nat → Int) : CounterSt :=
  counterInitAux openRes reqs 0 ⟨[], [], []⟩

/-- Model of `counter::get_counts`. -/
def get_counts (s : CounterSt) : List Int :=
  s.counts

/-- Model of `counter::get_status`: `if (i > 0 && i < m_fds.size()) return m_fds[i] > -1;
return false;`. -/
def get_status (s : CounterSt) (i : Int) : Bool :=
  if 0 < i ∧ i < (s.fds.length : Int) then decide (-1 < s.fds.getD i.toNat 0)
  else false

/-- Model of `counter::start`: every entry of `m_counts` is assigned 0 (the assignment
sits outside the `fd > -1` guard); `m_fds` and `m_events` are untouched.
The ioctl reset/enable calls are external effects. -/
def counterStart (s : CounterSt) : CounterSt :=
  { s with counts := s.counts.map (fun _ => 0) }

/-- Model of `counter::stop`: for each index with a usable fd, `m_counts[i]` receives
the value read from the channel (`reads i` models that external read);
other entries keep their value. -/
def counterStop (reads : Nat → Int) (s : CounterSt) : CounterSt :=
  { s with
    counts := (List.range s.counts.length).map (fun i =>
      if -1 < s.fds.getD i 0 then reads i else s.counts.getD i 0) }

/-! ### Collector construction (`src/collector.h`, constructor) -/

/-- The request order of `collector::collector`: the software list
`{TASK_CLOCK, CPU_CLOCK}` then the hardware list `{INSTRUCTIONS,
REF_CPU_CYCLES}`.  The enum constants `PERF_SW_TASK_CLK = 0`,
`PERF_SW_CPU_CLK = 1`, `PERF_HW_INSTR_CTR = 2`, `PERF_HW_CYCLES_CLK = 3`
name positions in this request order. -/
def reqEvents : List PerfEvent :=
  [.sw_task_clock, .sw_cpu_clock, .hw_instructions, .hw_ref_cpu_cycles]

/-- The channel-selection logic of `collector::collector`:
`m_ctr_idx = PERF_SW_TASK_CLK; if (m_counter.get_status(PERF_HW_INSTR_CTR))
m_ctr_idx = PERF_HW_INSTR_CTR;`.  The constructor has no failure path. -/
def collectorCtorIdx (openRes : Nat → Int) : Int :=
  if get_status (counterInit reqEvents openRes) 2 then 2 else 0

/-! ### Sequential sampler (`src/collector.h`, collect_for_input_size) -/

/-- The constructor arguments of `collector` (immutable configuration).
`mlog` models the positive constant `-std::log(m_alpha)`. -/
structure Config where
  mlog : ℚ
  beta_min : ℚ
  min_incr : Int
  max_incr : Int
  max_rounds : Int
  n_init : Int
  deriving DecidableEq, Repr

/-- The local state of `collector::collect_for_input_size`, plus the
bookkeeping fields `trials` (number of timed trials executed so far, which
is also the stream position of the next count), `rounds` (number of
completed iterations of the outer round loop) and `done` (the loop broke
via `beta <= m_beta_min`). -/
structure SessSt where
  n : Int
  sum : ℚ
  L_hat : Int
  n_tot : Int
  beta : ℚ
  xbar : ℚ
  lam_hat : ℚ
  fac : ℚ
  trials : Nat
  rounds : Nat
  done : Bool
  deriving DecidableEq, Repr

/-- The initializers of `collect_for_input_size`. -/
def initSt (cfg : Config) : SessSt :=
  { n := cfg.n_init, sum := 0, L_hat := 0, n_tot := 0, beta := cfg.beta_min + 1,
    xbar := 0, lam_hat := 0, fac := 0, trials := 0, rounds := 0, done := false }

/-- The inner gather loop `for (int i = 0; i <= n; ++i)`: the count of the
current trial is added to `sum`, and `L_hat` is assigned whenever `i == 0`
or the count is below it (so the first trial of the loop always overwrites
`L_hat`).  `t` is the stream position of the current trial, `m` the number
of iterations left, `i` the loop counter. -/
def gatherAux (cnt : Nat → Int) : Nat → Nat → Nat → ℚ → Int → ℚ × Int
  | _, 0, _, sum, L => (sum, L)
  | t, Nat.succ m, i, sum, L =>
      gatherAux cnt (t + 1) m (i + 1) (sum + (cnt t : ℚ))
        (if i = 0 ∨ cnt t < L then cnt t else L)

/-- The sum of the `m` counts starting at stream position `t` (what the
gather loop adds to `sum`). -/
def roundSum (cnt : Nat → Int) : Nat → Nat → ℚ
  | _, 0 => 0
  | t, Nat.succ m => (cnt t : ℚ) + roundSum cnt (t + 1) m

/-- C truncation toward zero of a rational, the semantics of the cast
`(int)(-std::log(m_alpha) / fac)`. -/
def cTrunc (q : ℚ) : Int :=
  q.num.tdiv q.den

/-- One iteration of the round loop of `collect_for_input_size`:
gather `n + 1` counts, update the statistics, test the stopping rule, and
otherwise choose the next batch size. -/
def roundStep (cfg : Config) (cnt : Nat → Int) (st : SessSt) : SessSt :=
  let iters : Nat := (st.n + 1).toNat
  let g := gatherAux cnt st.trials iters 0 st.sum st.L_hat
  let sum2 := g.1
  let L2 := g.2
  let n_tot2 := st.n_tot + st.n
  let xbar2 : ℚ := sum2 / (n_tot2 : ℚ)
  let lam2 : ℚ := 1 / (xbar2 - (L2 : ℚ))
  let facB : ℚ := (n_tot2 : ℚ) * lam2 * (L2 : ℚ)
  let beta2 : ℚ := cfg.mlog / facB
  if beta2 ≤ cfg.beta_min then
    { n := st.n, sum := sum2, L_hat := L2, n_tot := n_tot2, beta := beta2,
      xbar := xbar2, lam_hat := lam2, fac := facB,
      trials := st.trials + iters, rounds := st.rounds + 1, done := true }
  else
    let facN : ℚ := lam2 * cfg.beta_min * (L2 : ℚ)
    let new_n : Int := cTrunc (cfg.mlog / facN)
    let n2 : Int :=
      if new_n < n_tot2 then cfg.min_incr
      else
        let d := new_n - n_tot2
        if cfg.max_incr < d then cfg.max_incr
        else if d < cfg.min_incr then cfg.min_incr
        else d
    { n := n2, sum := sum2, L_hat := L2, n_tot := n_tot2, beta := beta2,
      xbar := xbar2, lam_hat := lam2, fac := facN,
      trials := st.trials + iters, rounds := st.rounds + 1, done := false }

/-- The factor `fac = n_tot * lam_hat * L_hat` that the round computed for
the `beta` division, expressed as a function of the entering state (it does
not depend on the configuration's `alpha`/`mlog` or `beta_min`). -/
def roundFac (cnt : Nat → Int) (st : SessSt) : ℚ :=
  let iters : Nat := (st.n + 1).toNat
  let g := gatherAux cnt st.trials iters 0 st.sum st.L_hat
  let n_tot2 := st.n_tot + st.n
  let xbar2 : ℚ := g.1 / (n_tot2 : ℚ)
  let lam2 : ℚ := 1 / (xbar2 - (g.2 : ℚ))
  (n_tot2 : ℚ) * lam2 * (g.2 : ℚ)

/-- The session state after at most `k` rounds: rounds execute one after the
other until the loop breaks (`done`), exactly as the round loop of
`collect_for_input_size` does. -/
def stepN (cfg : Config) (cnt : Nat → Int) : Nat → SessSt
  | 0 => initSt cfg
  | Nat.succ k =>
      let st := stepN cfg cnt k
      if st.done then st else roundStep cfg cnt st

/-- A full session: the round loop runs `for (int i = 0; i < m_max_rounds; ++i)`
unless it breaks earlier. -/
def session (cfg : Config) (cnt : Nat → Int) : SessSt :=
  stepN cfg cnt cfg.max_rounds.toNat

/-- One invocation `u(input_sz, sum, L_hat, n_tot)` of the updater. -/
structure SinkCall where
  input_sz : Int
  sum : ℚ
  L_hat : Int
  n_tot : Int
  deriving DecidableEq, Repr

/-- The loop of `collector::collect`: run a session at the current input
size, report to the sink, double the size (`N *= 2`), repeat; `t0` is the
stream position reached by the previous sessions. -/
def collectAux (cfg : Config) (cnt : Nat → Int) : Nat → Int → Nat → List SinkCall
  | 0, _, _ => []
  | Nat.succ k, N, t0 =>
      let st := session cfg (fun t => cnt (t0 + t))
      { input_sz := N, sum := st.sum, L_hat := st.L_hat, n_tot := st.n_tot } ::
        collectAux cfg cnt k (N * 2) (t0 + st.trials)

/-- Model of `collector::collect`: the list of sink invocations, in order. -/
def collect (cfg : Config) (cnt : Nat → Int) (N : Int) (num_runs : Int) :
    List SinkCall :=
  collectAux cfg cnt num_runs.toNat N 0

/-! ### Expected shapes of the counter vectors, for stating the invariant -/

/-- The requested events whose open attempt succeeds, in request order
(`i` is the index of the next open attempt). -/
def openedEvents (openRes : Nat → Int) : List PerfEvent → Nat → List PerfEvent
  | [], _ => []
  | e :: es, i =>
      if -1 < openRes i then e :: openedEvents openRes es (i + 1)
      else openedEvents openRes es (i + 1)

/-- The fds of the successful open attempts, in request order. -/
def openedFds (openRes : Nat → Int) : List PerfEvent → Nat → List Int
  | [], _ => []
  | _ :: es, i =>
      if -1 < openRes i then openRes i :: openedFds openRes es (i + 1)
      else openedFds openRes es (i + 1)

/-! ### Concrete instances used to evaluate the model -/

/-- A configuration with `-log(alpha) = 7/10` (`alpha ≈ 0.4966`),
`beta_min = 1/10`, `min_incr = max_incr = 1`, `max_rounds = 2`,
`n_init = 1`. -/
def cfg1 : Config :=
  { mlog := 7/10, beta_min := 1/10, min_incr := 1, max_incr := 1,
    max_rounds := 2, n_init := 1 }

/-- A counter stream whose first trial yields 5, second 1000, and every
later trial 10. -/
def cnt1 : Nat → Int :=
  fun t => if t = 0 then 5 else if t = 1 then 1000 else 10

/-- A configuration with `-log(alpha) = 2` (`alpha = e^-2 ≈ 0.135`). -/
def cfgA : Config :=
  { mlog := 2, beta_min := 1/10, min_incr := 1, max_incr := 30,
    max_rounds := 10, n_init := 1 }

/-- The same configuration with `-log(alpha) = 1` (`alpha = e^-1 ≈ 0.368`):
a strictly larger `alpha` than `cfgA`, all other parameters equal. -/
def cfgB : Config :=
  { cfgA with mlog := 1 }

/-- A fixed trial-count stream: 100 for the first two trials, 1 for trials
2..21, and 11 from trial 22 on. -/
def cnt8 : Nat → Int :=
  fun t => if t < 2 then 100 else if t < 22 then 1 else 11

/-- Open results where every `perf_event_open` call fails. -/
def allFail : Nat → Int := fun _ => -1

/-- Open results where only the first request (the task clock) fails. -/
def skipTaskClk : Nat → Int := fun i => if i = 0 then -1 else 5

/-- Open results where every `perf_event_open` call succeeds with fd 5. -/
def allOpen : Nat → Int := fun _ => 5

/-- A configuration with a small `-log(alpha) = 1/20`, under which a first
round of constant counts already converges. -/
def cfgW : Config :=
  { mlog := 1/20, beta_min := 1/10, min_incr := 1, max_incr := 1,
    max_rounds := 2, n_init := 1 }

/-- The constant counter stream that always yields 10. -/
def cntTen : Nat → Int := fun _ => 10

/-! ### Helper lemmas about the gather loop and one round -/

lemma gatherAux_fst (cnt : Nat → Int) :
    ∀ (m t i : Nat) (sum : ℚ) (L : Int),
      (gatherAux cnt t m i sum L).1 = sum + roundSum cnt t m := by
  intro m
  induction m with
  | zero => intro t i sum L; simp [gatherAux, roundSum]
  | succ m ih =>
      intro t i sum L
      simp only [gatherAux, roundSum, ih]
      ring

lemma roundStep_trials (cfg : Config) (cnt : Nat → Int) (st : SessSt) :
    (roundStep cfg cnt st).trials = st.trials + (st.n + 1).toNat := by
  simp only [roundStep]
  split <;> rfl

lemma roundStep_rounds (cfg : Config) (cnt : Nat → Int) (st : SessSt) :
    (roundStep cfg cnt st).rounds = st.rounds + 1 := by
  simp only [roundStep]
  split <;> rfl

lemma roundStep_n_tot (cfg : Config) (cnt : Nat → Int) (st : SessSt) :
    (roundStep cfg cnt st).n_tot = st.n_tot + st.n := by
  simp only [roundStep]
  split <;> rfl

lemma roundStep_sum (cfg : Config) (cnt : Nat → Int) (st : SessSt) :
    (roundStep cfg cnt st).sum = st.sum + roundSum cnt st.trials (st.n + 1).toNat := by
  simp only [roundStep]
  split <;> simp [gatherAux_fst]

lemma roundStep_n_lb (cfg : Config) (cnt : Nat → Int) (st : SessSt)
    (h1 : 1 ≤ cfg.min_incr) (h2 : cfg.min_incr ≤ cfg.max_incr) (h3 : 1 ≤ st.n) :
    1 ≤ (roundStep cfg cnt st).n := by
  simp only [roundStep]
  split
  · exact h3
  · dsimp only
    split
    · omega
    · split
      · omega
      · split <;> omega

lemma roundStep_done_iff (cfg : Config) (cnt : Nat → Int) (st : SessSt) :
    (roundStep cfg cnt st).done = true ↔ (roundStep cfg cnt st).beta ≤ cfg.beta_min := by
  simp only [roundStep]
  split
  · next h => simpa using h
  · next h => simpa using h

lemma roundStep_beta (cfg : Config) (cnt : Nat → Int) (st : SessSt) :
    (roundStep cfg cnt st).beta = cfg.mlog / roundFac cnt st := by
  simp only [roundStep, roundFac]
  split <;> rfl

/-! ### Helper lemmas about the round loop -/

lemma stepN_succ (cfg : Config) (cnt : Nat → Int) (k : Nat) :
    stepN cfg cnt (k + 1) =
      if (stepN cfg cnt k).done then stepN cfg cnt k
      else roundStep cfg cnt (stepN cfg cnt k) := rfl

lemma stepN_done_iff (cfg : Config) (cnt : Nat → Int) :
    ∀ k, (stepN cfg cnt k).done = true ↔ (stepN cfg cnt k).beta ≤ cfg.beta_min := by
  intro k
  induction k with
  | zero =>
      simp only [stepN, initSt]
      constructor
      · intro h; exact absurd h (by simp)
      · intro h; exact absurd h (by simp)
  | succ k ih =>
      rw [stepN_succ]
      by_cases hd : (stepN cfg cnt k).done
      · rw [if_pos hd]; exact ih
      · rw [if_neg hd]; exact roundStep_done_iff cfg cnt (stepN cfg cnt k)

lemma stepN_rounds_of_not_done (cfg : Config) (cnt : Nat → Int) :
    ∀ k, (stepN cfg cnt k).done = false → (stepN cfg cnt k).rounds = k := by
  intro k
  induction k with
  | zero => intro _; rfl
  | succ k ih =>
      intro h
      rw [stepN_succ] at h ⊢
      by_cases hd : (stepN cfg cnt k).done
      · rw [if_pos hd] at h; rw [hd] at h; exact absurd h (by simp)
      · rw [if_neg hd] at h ⊢
        rw [roundStep_rounds, ih (by simpa using hd)]

/-- The running invariant of a session under a valid configuration:
the batch size stays at least 1, `n_tot` is pinned down after round one,
grows past `n_init` from round two on, and the number of executed timed
trials always equals `n_tot` plus the number of executed rounds. -/
lemma stepN_invariant (cfg : Config) (cnt : Nat → Int)
    (h1 : 1 ≤ cfg.min_incr) (h2 : cfg.min_incr ≤ cfg.max_incr) (h3 : 1 ≤ cfg.n_init) :
    ∀ k, 1 ≤ (stepN cfg cnt k).n
      ∧ ((stepN cfg cnt k).rounds = 0 →
          (stepN cfg cnt k).n_tot = 0 ∧ (stepN cfg cnt k).n = cfg.n_init)
      ∧ (1 ≤ (stepN cfg cnt k).rounds → cfg.n_init ≤ (stepN cfg cnt k).n_tot)
      ∧ (2 ≤ (stepN cfg cnt k).rounds → cfg.n_init + 1 ≤ (stepN cfg cnt k).n_tot)
      ∧ ((stepN cfg cnt k).trials : Int)
          = (stepN cfg cnt k).n_tot + ((stepN cfg cnt k).rounds : Int) := by
  intro k
  induction k with
  | zero =>
      refine ⟨h3, fun _ => ⟨rfl, rfl⟩, fun h => absurd h (by simp [stepN, initSt]), fun h => absurd h (by simp [stepN, initSt]), by simp [stepN, initSt]⟩
  | succ k ih =>
      obtain ⟨ihn, ih0, ih1, ih2, iht⟩ := ih
      rw [stepN_succ]
      by_cases hd : (stepN cfg cnt k).done
      · rw [if_pos hd]; exact ⟨ihn, ih0, ih1, ih2, iht⟩
      · rw [if_neg hd]
        set st := stepN cfg cnt k with hst
        have hn := roundStep_n_lb cfg cnt st h1 h2 ihn
        have hr := roundStep_rounds cfg cnt st
        have ht := roundStep_n_tot cfg cnt st
        have htr := roundStep_trials cfg cnt st
        have hcast : (((st.n + 1).toNat : Int)) = st.n + 1 := by omega
        refine ⟨hn, ?_, ?_, ?_, ?_⟩
        · intro h; rw [hr] at h; omega
        · intro _
          rcases Nat.eq_zero_or_pos st.rounds with h0 | h0
          · obtain ⟨hz, he⟩ := ih0 h0
            rw [ht, hz, he]; omega
          · have := ih1 h0
            rw [ht]; omega
        · intro h
          rw [hr] at h
          rcases Nat.eq_zero_or_pos st.rounds with h0 | h0
          · omega
          · have := ih1 h0
            rw [ht]; omega
        · rw [htr, ht, hr]
          push_cast
          omega

/-! ### Helper lemmas about the counter vectors -/

lemma counterInitAux_spec (openRes : Nat → Int) :
    ∀ (es : List PerfEvent) (i : Nat) (E : List PerfEvent) (F C : List Int),
      counterInitAux openRes es i ⟨E, F, C⟩ =
        ⟨E ++ openedEvents openRes es i, F ++ openedFds openRes es i,
          C ++ List.replicate (openedFds openRes es i).length 0⟩ := by
  intro es
  induction es with
  | nil => intro i E F C; simp [counterInitAux, openedEvents, openedFds]
  | cons e es ih =>
      intro i E F C
      simp only [counterInitAux, init_event, openedEvents, openedFds]
      by_cases h : -1 < openRes i
      · simp only [if_pos h, ih]
        simp [List.replicate_succ]
      · simp only [if_neg h, ih]

lemma openedFds_length_eq (openRes : Nat → Int) :
    ∀ (es : List PerfEvent) (i : Nat),
      (openedEvents openRes es i).length = (openedFds openRes es i).length := by
  intro es
  induction es with
  | nil => intro i; rfl
  | cons e es ih =>
      intro i
      simp only [openedEvents, openedFds]
      by_cases h : -1 < openRes i
      · rw [if_pos h, if_pos h]; simp [ih]
      · rw [if_neg h, if_neg h]; exact ih (i + 1)

lemma openedFds_pos (openRes : Nat → Int) :
    ∀ (es : List PerfEvent) (i : Nat) (fd : Int), fd ∈ openedFds openRes es i → -1 < fd := by
  intro es
  induction es with
  | nil => intro i fd h; exact absurd h (by simp [openedFds])
  | cons e es ih =>
      intro i fd h
      simp only [openedFds] at h
      by_cases hc : -1 < openRes i
      · rw [if_pos hc] at h
        rcases List.mem_cons.mp h with he | ht
        · rw [he]; exact hc
        · exact ih (i + 1) fd ht
      · rw [if_neg hc] at h
        exact ih (i + 1) fd h

lemma counterInit_eq (reqs : List PerfEvent) (openRes : Nat → Int) :
    counterInit reqs openRes =
      ⟨openedEvents openRes reqs 0, openedFds openRes reqs 0,
        List.replicate (openedFds openRes reqs 0).length 0⟩ := by
  have := counterInitAux_spec openRes reqs 0 [] [] []
  simpa [counterInit] using this

/-! ### Helper lemmas about the outer doubling loop -/

lemma collectAux_sizes (cfg : Config) (cnt : Nat → Int) :
    ∀ (k : Nat) (N : Int) (t0 : Nat),
      (collectAux cfg cnt k N t0).map SinkCall.input_sz
        = (List.range k).map (fun i => N * 2 ^ i) := by
  intro k
  induction k with
  | zero => intro N t0; rfl
  | succ k ih =>
      intro N t0
      rw [List.range_succ_eq_map]
      simp only [collectAux, List.map_cons, ih, List.map_map, List.cons.injEq]
      refine ⟨by norm_num, ?_⟩
      apply List.map_congr_left
      intro a _
      simp only [Function.comp_apply]
      rw [Nat.succ_eq_add_one, pow_succ]
      ring

/-! ### Claim theorems -/

unseal Rat.mul Rat.add Rat.sub Rat.inv

/-- Claim C1: the claim that `L_hat` is initialized by the first trial of the
session, only ever lowered thereafter, and reported to the sink no greater
than every raw count observed in the session, is violated by the code: the
inner gather loop redeclares the loop index `i`, so the `i == 0` clause
re-initializes `L_hat` at the first trial of every round.  Under `cfg1`
with stream `cnt1` the session observes the raw count 5 at its first trial
(round 1), yet after round 2 `L_hat` has risen from 5 to 10, and the final
aggregate hands the sink `L_hat = 10 > 5`. -/
theorem C1_lhat_reset_eval :
    (stepN cfg1 cnt1 1).L_hat = 5
    ∧ (stepN cfg1 cnt1 2).L_hat = 10
    ∧ (stepN cfg1 cnt1 1).L_hat < (stepN cfg1 cnt1 2).L_hat
    ∧ (session cfg1 cnt1).L_hat = 10
    ∧ (session cfg1 cnt1).trials = 4
    ∧ cnt1 0 = 5
    ∧ ¬ (session cfg1 cnt1).L_hat ≤ cnt1 0 := by
  decide

/-- Claim C2: there is a counter source returning the same fixed count for
every trial (here the constant count 0) under which, after one round, the
running sample mean `xbar` equals the running minimum `L_hat`, so the
denominator `xbar - L_hat` of the rate estimate `lam_hat` in step 4 is
zero, and the zero factor propagates to the denominator `fac` of the
`beta` computation feeding the stopping comparison. -/
theorem C2_degenerate_reachable :
    ∃ (c : Int) (cfg : Config),
      0 < cfg.mlog ∧ 0 < cfg.beta_min ∧ cfg.beta_min < 1
      ∧ 1 ≤ cfg.min_incr ∧ cfg.min_incr ≤ cfg.max_incr
      ∧ 1 ≤ cfg.max_rounds ∧ 1 ≤ cfg.n_init
      ∧ (stepN cfg (fun _ => c) 1).rounds = 1
      ∧ (stepN cfg (fun _ => c) 1).xbar - ((stepN cfg (fun _ => c) 1).L_hat : ℚ) = 0
      ∧ (stepN cfg (fun _ => c) 1).fac = 0 := by
  refine ⟨0, cfg1, ?_⟩
  decide

/-- Claim C3: for a valid configuration (`min_incr ≥ 1`,
`min_incr ≤ max_incr`, `n_init ≥ 1`), `n_tot` strictly increases at every
executed round (a round executes after state `k` exactly when the loop has
not broken, i.e. `done = false`), and at every state from the second
executed round on, `n_tot` is at least `n_init + 1`. -/
theorem C3_ntot_strict_increase (cfg : Config) (cnt : Nat → Int) (k : Nat)
    (h1 : 1 ≤ cfg.min_incr) (h2 : cfg.min_incr ≤ cfg.max_incr)
    (h3 : 1 ≤ cfg.n_init) :
    ((stepN cfg cnt k).done = false →
      (stepN cfg cnt k).n_tot < (stepN cfg cnt (k + 1)).n_tot)
    ∧ (2 ≤ (stepN cfg cnt k).rounds → cfg.n_init + 1 ≤ (stepN cfg cnt k).n_tot) := by
  obtain ⟨hn, _, _, h2r, _⟩ := stepN_invariant cfg cnt h1 h2 h3 k
  constructor
  · intro hd
    rw [stepN_succ, if_neg (by simp [hd])]
    rw [roundStep_n_tot]
    omega
  · exact h2r

/-- Witness for C3 at `cfg1`, `cnt1`, `k = 2`: both conjuncts are
non-vacuous there (after round 2 the loop has not converged and
`rounds = 2`). -/
theorem C3_ntot_strict_increase_witness :
    (1 ≤ cfg1.min_incr ∧ cfg1.min_incr ≤ cfg1.max_incr ∧ 1 ≤ cfg1.n_init
      ∧ (stepN cfg1 cnt1 2).done = false ∧ 2 ≤ (stepN cfg1 cnt1 2).rounds)
    ∧ (((stepN cfg1 cnt1 2).done = false →
          (stepN cfg1 cnt1 2).n_tot < (stepN cfg1 cnt1 3).n_tot)
        ∧ (2 ≤ (stepN cfg1 cnt1 2).rounds →
          cfg1.n_init + 1 ≤ (stepN cfg1 cnt1 2).n_tot)) :=
  ⟨by decide, C3_ntot_strict_increase cfg1 cnt1 2 (by decide) (by decide) (by decide)⟩

/-- Claim C4: for every configuration, counter stream, initial input size
`N` and iteration count `k`, `collect` invokes the sink exactly `k` times,
once per input size, with the sizes `N, 2N, 4N, ...` in that order
(sessions report whether or not they converged, since the sink call is
unconditional); in particular `collect` at `N = 64`, `k = 3` produces the
sizes `64, 128, 256` in order. -/
theorem C4_collect_sink_calls (cfg : Config) (cnt : Nat → Int) (N : Int) (k : Nat) :
    (collect cfg cnt N (k : Int)).length = k
    ∧ (collect cfg cnt N (k : Int)).map SinkCall.input_sz
        = (List.range k).map (fun i => N * 2 ^ i)
    ∧ (collect cfg cnt 64 3).map SinkCall.input_sz = [64, 128, 256] := by
  have hmap : ∀ (M : Int) (j : Nat), (collect cfg cnt M (j : Int)).map SinkCall.input_sz
      = (List.range j).map (fun i => M * 2 ^ i) := by
    intro M j
    have : ((j : Int)).toNat = j := rfl
    rw [collect, this, collectAux_sizes]
  refine ⟨?_, hmap N k, ?_⟩
  · have := congrArg List.length (hmap N k)
    simpa using this
  · have h3 : ((3 : Int)) = ((3 : Nat) : Int) := rfl
    rw [h3, hmap 64 3]
    decide

/-- Claim C5: the claim that construction selects the hardware
instruction-count channel if it opened, else the software task clock, and
fails explicitly when both fail, is violated by the code.  When every
channel fails to open the constructor still completes, leaving
`m_ctr_idx = PERF_SW_TASK_CLK = 0` although the fd vector is empty and
`get_status` reports index 0 (and 2) unusable.  Moreover the selection is
positional: when only the task clock fails, `get_status(2)` is still true
(at least three channels opened) and the selected index 2 actually denotes
the reference-cycles channel, not the instruction counter. -/
theorem C5_ctor_no_failure :
    collectorCtorIdx allFail = 0
    ∧ (counterInit reqEvents allFail).fds = []
    ∧ get_status (counterInit reqEvents allFail) 0 = false
    ∧ get_status (counterInit reqEvents allFail) 2 = false
    ∧ collectorCtorIdx skipTaskClk = 2
    ∧ (counterInit reqEvents skipTaskClk).events =
        [PerfEvent.sw_cpu_clock, PerfEvent.hw_instructions, PerfEvent.hw_ref_cpu_cycles]
    ∧ (counterInit reqEvents skipTaskClk).events.getD 2 PerfEvent.sw_task_clock
        = PerfEvent.hw_ref_cpu_cycles := by
  decide

/-- Claim C6: the claim that `get_status(i)` returns true iff channel `i`
is usable — in particular true for every successfully opened channel,
including index 0 — is violated by the code: the guard reads `i > 0`
instead of `i >= 0`, so index 0 reports false even when its open succeeded
and its fd (5 here) is usable, while the identically-opened indices 1..3
report true. -/
theorem C6_status_index_zero :
    (counterInit reqEvents allOpen).fds.getD 0 0 = 5
    ∧ (-1 < (counterInit reqEvents allOpen).fds.getD 0 0)
    ∧ get_status (counterInit reqEvents allOpen) 0 = false
    ∧ get_status (counterInit reqEvents allOpen) 1 = true
    ∧ get_status (counterInit reqEvents allOpen) 2 = true
    ∧ get_status (counterInit reqEvents allOpen) 3 = true := by
  decide

/-- Claim C7: at session end (state after the round loop of
`collect_for_input_size`, whose budget is `max_rounds`), exactly one of
the following holds: `beta ≤ beta_min` (converged), or the number of
executed rounds equals `max_rounds` with the bound not met (exhausted);
the two are mutually exclusive and never both false. -/
theorem C7_session_end_dichotomy (cfg : Config) (cnt : Nat → Int)
    (h : 0 ≤ cfg.max_rounds) :
    ((session cfg cnt).beta ≤ cfg.beta_min
        ∧ ¬(((session cfg cnt).rounds : Int) = cfg.max_rounds
            ∧ ¬(session cfg cnt).beta ≤ cfg.beta_min))
    ∨ ((((session cfg cnt).rounds : Int) = cfg.max_rounds
            ∧ ¬(session cfg cnt).beta ≤ cfg.beta_min)
        ∧ ¬(session cfg cnt).beta ≤ cfg.beta_min) := by
  by_cases hb : (session cfg cnt).beta ≤ cfg.beta_min
  · exact Or.inl ⟨hb, fun hx => hx.2 hb⟩
  · refine Or.inr ⟨⟨?_, hb⟩, hb⟩
    have hd : (stepN cfg cnt cfg.max_rounds.toNat).done = false := by
      rcases Bool.eq_false_or_eq_true (stepN cfg cnt cfg.max_rounds.toNat).done with h0 | h1
      · exact absurd ((stepN_done_iff cfg cnt cfg.max_rounds.toNat).mp h0) hb
      · exact h1
    have hr := stepN_rounds_of_not_done cfg cnt cfg.max_rounds.toNat hd
    show ((stepN cfg cnt cfg.max_rounds.toNat).rounds : Int) = cfg.max_rounds
    rw [hr]
    exact Int.toNat_of_nonneg h

/-- Witness for C7 at `cfg1`, `cnt1`: that session exhausts its budget
(`rounds = max_rounds = 2`) without meeting the bound. -/
theorem C7_session_end_dichotomy_witness :
    0 ≤ cfg1.max_rounds
    ∧ (((session cfg1 cnt1).beta ≤ cfg1.beta_min
          ∧ ¬(((session cfg1 cnt1).rounds : Int) = cfg1.max_rounds
              ∧ ¬(session cfg1 cnt1).beta ≤ cfg1.beta_min))
      ∨ ((((session cfg1 cnt1).rounds : Int) = cfg1.max_rounds
              ∧ ¬(session cfg1 cnt1).beta ≤ cfg1.beta_min)
          ∧ ¬(session cfg1 cnt1).beta ≤ cfg1.beta_min)) :=
  ⟨by decide, C7_session_end_dichotomy cfg1 cnt1 (by decide)⟩

set_option maxRecDepth 100000 in
/-- Claim C8 (counterexample): the claim that, for a fixed count stream and
fixed `beta_min, min_incr, max_incr, max_rounds, n_init`, a smaller
`alpha` converges with at least as many total trials as a larger `alpha`,
fails.  `cfgA` has `-log(alpha) = 2` and `cfgB` has `-log(alpha) = 1`
(so `alpha_A = e^-2 < alpha_B = e^-1`, all other parameters equal); on the
stream `cnt8` both sessions converge (`beta ≤ beta_min`), yet the
tighter-confidence session stops at `n_tot = 50` while the looser one
stops at `n_tot = 70`. -/
theorem C8_alpha_monotonicity_cex :
    cfgB = { cfgA with mlog := 1 }
    ∧ cfgB.mlog < cfgA.mlog ∧ 0 < cfgB.mlog
    ∧ (session cfgA cnt8).done = true ∧ (session cfgA cnt8).beta ≤ cfgA.beta_min
    ∧ (session cfgB cnt8).done = true ∧ (session cfgB cnt8).beta ≤ cfgB.beta_min
    ∧ (session cfgA cnt8).n_tot = 50 ∧ (session cfgB cnt8).n_tot = 70
    ∧ (session cfgA cnt8).n_tot < (session cfgB cnt8).n_tot := by
  decide

/-- Claim C8 (amended): what does hold is per-round monotonicity in
`alpha` at equal statistics: for two configurations that differ only in
`mlog = -log(alpha)` (so a smaller `alpha` has the larger `mlog`), a round
entered in the same state, whose `fac` is positive, that converges under
the larger `mlog` also converges under the smaller, and its `beta`
estimate is no larger.  Full-session monotonicity of `n_tot` fails because
the two runs consume the count stream at different offsets. -/
theorem C8_beta_monotone_per_round (cfg : Config) (m2 : ℚ) (cnt : Nat → Int)
    (st : SessSt) ( _h0 : 0 ≤ m2) (h1 : m2 ≤ cfg.mlog)
    (hdone : (roundStep cfg cnt st).done = true)
    (hfac : 0 < roundFac cnt st) :
    (roundStep { cfg with mlog := m2 } cnt st).done = true
    ∧ (roundStep { cfg with mlog := m2 } cnt st).beta ≤ (roundStep cfg cnt st).beta := by
  have hb1 : (roundStep cfg cnt st).beta ≤ cfg.beta_min :=
    (roundStep_done_iff cfg cnt st).mp hdone
  rw [roundStep_beta] at hb1
  have hb2 : m2 / roundFac cnt st ≤ cfg.mlog / roundFac cnt st :=
    (div_le_div_iff_of_pos_right hfac).mpr h1
  have hble : (roundStep { cfg with mlog := m2 } cnt st).beta ≤ cfg.beta_min := by
    rw [roundStep_beta]
    exact le_trans hb2 hb1
  constructor
  · exact (roundStep_done_iff { cfg with mlog := m2 } cnt st).mpr hble
  · rw [roundStep_beta, roundStep_beta]
    exact hb2

/-- Witness for the amended C8 at `cfgW` (with `mlog = 1/20`), the smaller
`m2 = 1/40`, the constant stream `cntTen` and the initial state: the round
converges under both and the positivity and ordering hypotheses hold. -/
theorem C8_beta_monotone_per_round_witness :
    (0 ≤ (1/40 : ℚ) ∧ (1/40 : ℚ) ≤ cfgW.mlog
      ∧ (roundStep cfgW cntTen (initSt cfgW)).done = true
      ∧ 0 < roundFac cntTen (initSt cfgW))
    ∧ ((roundStep { cfgW with mlog := 1/40 } cntTen (initSt cfgW)).done = true
      ∧ (roundStep { cfgW with mlog := 1/40 } cntTen (initSt cfgW)).beta
          ≤ (roundStep cfgW cntTen (initSt cfgW)).beta) :=
  ⟨by decide, C8_beta_monotone_per_round cfgW (1/40) cntTen (initSt cfgW)
    (by decide) (by decide) (by decide) (by decide)⟩

/-- Claim C9: a round entered with batch size `n ≥ 0` executes exactly
`n + 1` timed trials, adds all `n + 1` counts to `sum`, but adds only `n`
to `n_tot`; consequently, under a valid configuration, the number of timed
trials executed in a session always equals the reported `n_tot` plus the
number of executed rounds. -/
theorem C9_trials_accounting (cfg : Config) (cnt : Nat → Int) (st : SessSt)
    (k : Nat) (h1 : 1 ≤ cfg.min_incr) (h2 : cfg.min_incr ≤ cfg.max_incr)
    (h3 : 1 ≤ cfg.n_init) (hn : 0 ≤ st.n) :
    (roundStep cfg cnt st).trials = st.trials + (st.n.toNat + 1)
    ∧ (roundStep cfg cnt st).sum = st.sum + roundSum cnt st.trials (st.n.toNat + 1)
    ∧ (roundStep cfg cnt st).n_tot = st.n_tot + st.n
    ∧ (roundStep cfg cnt st).rounds = st.rounds + 1
    ∧ ((stepN cfg cnt k).trials : Int)
        = (stepN cfg cnt k).n_tot + ((stepN cfg cnt k).rounds : Int) := by
  have hcast : (st.n + 1).toNat = st.n.toNat + 1 := by omega
  obtain ⟨_, _, _, _, ht⟩ := stepN_invariant cfg cnt h1 h2 h3 k
  exact ⟨by rw [roundStep_trials, hcast], by rw [roundStep_sum, hcast],
    roundStep_n_tot cfg cnt st, roundStep_rounds cfg cnt st, ht⟩

/-- Witness for C9 at `cfg1`, `cnt1`, the initial state and `k = 2`:
the first round runs 2 trials (batch size 1), accumulates both counts
(5 and 1000) into `sum`, and `trials = n_tot + rounds = 4` after two
rounds. -/
theorem C9_trials_accounting_witness :
    (1 ≤ cfg1.min_incr ∧ cfg1.min_incr ≤ cfg1.max_incr ∧ 1 ≤ cfg1.n_init
      ∧ 0 ≤ (initSt cfg1).n)
    ∧ ((roundStep cfg1 cnt1 (initSt cfg1)).trials
          = (initSt cfg1).trials + ((initSt cfg1).n.toNat + 1)
      ∧ (roundStep cfg1 cnt1 (initSt cfg1)).sum
          = (initSt cfg1).sum
            + roundSum cnt1 (initSt cfg1).trials ((initSt cfg1).n.toNat + 1)
      ∧ (roundStep cfg1 cnt1 (initSt cfg1)).n_tot
          = (initSt cfg1).n_tot + (initSt cfg1).n
      ∧ (roundStep cfg1 cnt1 (initSt cfg1)).rounds = (initSt cfg1).rounds + 1
      ∧ ((stepN cfg1 cnt1 2).trials : Int)
          = (stepN cfg1 cnt1 2).n_tot + ((stepN cfg1 cnt1 2).rounds : Int)) :=
  ⟨by decide, C9_trials_accounting cfg1 cnt1 (initSt cfg1) 2
    (by decide) (by decide) (by decide) (by decide)⟩

/-- Claim C10: after construction the counter's three vectors (`m_events`,
`m_fds`, `m_counts`) have equal length, with exactly one entry per
successfully opened channel in the order the channels were opened, every
stored fd is greater than -1, and `start`/`stop` preserve the fds and the
length of the counts vector, so every entry of `get_counts` corresponds to
an opened channel in open order. -/
theorem C10_vectors_aligned (reqs : List PerfEvent) (openRes reads : Nat → Int) :
    (counterInit reqs openRes).events = openedEvents openRes reqs 0
    ∧ (counterInit reqs openRes).fds = openedFds openRes reqs 0
    ∧ (counterInit reqs openRes).counts
        = List.replicate (counterInit reqs openRes).fds.length 0
    ∧ (counterInit reqs openRes).events.length = (counterInit reqs openRes).fds.length
    ∧ (get_counts (counterInit reqs openRes)).length
        = (counterInit reqs openRes).fds.length
    ∧ (∀ fd ∈ (counterInit reqs openRes).fds, -1 < fd)
    ∧ (counterStart (counterInit reqs openRes)).fds = (counterInit reqs openRes).fds
    ∧ (counterStart (counterInit reqs openRes)).counts.length
        = (counterInit reqs openRes).counts.length
    ∧ (counterStop reads (counterInit reqs openRes)).fds
        = (counterInit reqs openRes).fds
    ∧ (counterStop reads (counterInit reqs openRes)).counts.length
        = (counterInit reqs openRes).counts.length := by
  rw [counterInit_eq reqs openRes]
  dsimp only [get_counts, counterStart, counterStop]
  refine ⟨rfl, rfl, ?_, ?_, ?_, ?_, rfl, ?_, rfl, ?_⟩
  · simp
  · simpa using openedFds_length_eq openRes reqs 0
  · simp
  · intro fd hfd
    exact openedFds_pos openRes reqs 0 fd hfd
  · simp
  · simp

end ExpPerf
